import Mathlib

/-!
Shallow embedding of the ipfs-lab workload generator (src/scripts/simulator.py)
and topology constructor/verifier (src/scripts/topology.py), together with
theorems settling the specification claims about them.

Network effects (HTTP requests, DNS resolution) are modelled as explicit
outcome parameters; all randomness (Python random.randint, random.choices,
numpy exponential samples) is modelled as explicit inputs drawn from the
distributions' supports.
-/

namespace IPFS

/-- Action field of a workload log row: simulator.py writes "upload" or "download". -/
inductive Action where
  | upload
  | download
deriving DecidableEq, Repr

/-- One row of the workload log (simulator.py `_log_action`):
timestamp, node, action, file_size, cid, duration, success.  The timestamp is
the wall-clock start time and carries no information the claims need, so it is
omitted; `node` keeps the node index instead of the "ipfs{i}" name string. -/
structure OperationRecord where
  node : Nat
  action : Action
  file_size : Nat
  cid : String
  duration : Rat
  success : Bool
deriving DecidableEq, Repr

/-- Outcome of the HTTP POST to /api/v0/add inside `upload_file`:
either the request succeeds and yields a content identifier, or it raises
TimeoutError, or it raises some other exception (e.g. a non-2xx status from
`raise_for_status`, a connection error, or a missing JSON field). -/
inductive UploadOutcome where
  | ok (cid : String)
  | timeout
  | failure (msg : String)
deriving DecidableEq, Repr

/-- Outcome of the HTTP POST to /api/v0/cat inside `download_file`:
success carries the length of the fetched payload (the code only logs
`len(content)`). -/
inductive DownloadOutcome where
  | ok (contentLength : Nat)
  | timeout
  | failure (msg : String)
deriving DecidableEq, Repr

/-- Embedding of `IPFSSimulator.upload_file` (simulator.py lines 50-79).
Returns the workload-log rows written and the Python return value
(`Some cid` on success, `None` on timeout).  The `try` block catches ONLY
`TimeoutError`; any other exception propagates to the caller with no log row
written, modelled by `Except.error`. -/
def upload_file (node_idx : Nat) (file_size : Nat) (outcome : UploadOutcome)
    (duration : Rat) : Except String (List OperationRecord × Option String) :=
  match outcome with
  | .ok cid => .ok ([⟨node_idx, .upload, file_size, cid, duration, true⟩], some cid)
  | .timeout => .ok ([⟨node_idx, .upload, file_size, "error", duration, false⟩], none)
  | .failure msg => .error msg

/-- Embedding of `IPFSSimulator.download_file` (simulator.py lines 81-103).
On success it logs `len(content)` as the file size; on timeout it logs file
size 0 with the requested cid and success false.  Only `TimeoutError` is
caught; any other exception propagates with no log row written. -/
def download_file (node_idx : Nat) (cid : String) (outcome : DownloadOutcome)
    (duration : Rat) : Except String (List OperationRecord × Option Nat) :=
  match outcome with
  | .ok len => .ok ([⟨node_idx, .download, len, cid, duration, true⟩], some len)
  | .timeout => .ok ([⟨node_idx, .download, 0, cid, duration, false⟩], none)
  | .failure msg => .error msg

/-- Embedding of `IPFSSimulator.run_operation` (simulator.py lines 105-117).
Python draws `op = random.randint(0, len(uploaded_files) + 1)`; `randint` is
inclusive at BOTH ends, so `op` is uniform over the `len + 2` integers
`0 .. len + 1`, modelled as `Fin (uploaded_files.length + 2)`.  If
`op >= len(uploaded_files)` the task uploads a file of size
`min size max_size` and appends the returned cid to the shared list when the
upload succeeds; otherwise it downloads `uploaded_files[op]`.  The returned
pair is (log rows written, the shared list after the operation). -/
def run_operation (uploaded_files : List String)
    (op : Fin (uploaded_files.length + 2)) (node : Nat) (size max_size : Nat)
    (upOutcome : UploadOutcome) (dlOutcome : DownloadOutcome) (duration : Rat) :
    Except String (List OperationRecord × List String) :=
  if h : uploaded_files.length ≤ op.val then
    match upload_file node (min size max_size) upOutcome duration with
    | .error msg => .error msg
    | .ok (rows, none) => .ok (rows, uploaded_files)
    | .ok (rows, some cid) => .ok (rows, uploaded_files ++ [cid])
  else
    match download_file node (uploaded_files.get ⟨op.val, by omega⟩) dlOutcome
        duration with
    | .error msg => .error msg
    | .ok (rows, _) => .ok (rows, uploaded_files)

/-- The action `run_operation` selects for a given value of
`random.randint(0, n + 1)` where `n` is the length of the shared list:
upload exactly when `op >= n` (simulator.py line 110). -/
def selectedAction (n : Nat) (op : Fin (n + 2)) : Action :=
  if n ≤ op.val then .upload else .download

/-- Number of equally likely values `random.randint(0, n + 1)` can return:
the inclusive integer range `0 .. n + 1`, i.e. the whole of `Fin (n + 2)`. -/
def opSlotCount (n : Nat) : Nat :=
  Fintype.card (Fin (n + 2))

/-- The randint values that make `run_operation` choose upload. -/
def uploadSlots (n : Nat) : Finset (Fin (n + 2)) :=
  Finset.univ.filter (fun op => selectedAction n op = Action.upload)

/-- The randint values that make `run_operation` download the identifier at
index `i` of the shared list. -/
def downloadSlotsFor (n i : Nat) : Finset (Fin (n + 2)) :=
  Finset.univ.filter
    (fun op => selectedAction n op = Action.download ∧ op.val = i)

/-- Probability that a scheduled task chooses upload, as a ratio of
equally likely randint values. -/
def uploadProb (n : Nat) : Rat :=
  ((uploadSlots n).card : Rat) / (opSlotCount n : Rat)

/-- Probability that a scheduled task downloads the identifier at index `i`. -/
def downloadProbFor (n i : Nat) : Rat :=
  ((downloadSlotsFor n i).card : Rat) / (opSlotCount n : Rat)

lemma selectedAction_eq_upload (n : Nat) (op : Fin (n + 2)) :
    selectedAction n op = Action.upload ↔ n ≤ op.val := by
  unfold selectedAction
  split <;> simp_all

lemma selectedAction_eq_download (n : Nat) (op : Fin (n + 2)) :
    selectedAction n op = Action.download ↔ op.val < n := by
  unfold selectedAction
  split <;> simp_all

lemma uploadSlots_eq (n : Nat) :
    uploadSlots n = {⟨n, by omega⟩, ⟨n + 1, by omega⟩} := by
  ext op
  simp [uploadSlots, selectedAction_eq_upload, Fin.ext_iff]
  omega

lemma card_uploadSlots (n : Nat) : (uploadSlots n).card = 2 := by
  rw [uploadSlots_eq]
  rw [Finset.card_insert_of_not_mem (by simp [Fin.ext_iff])]
  simp

lemma downloadSlotsFor_eq (n i : Nat) (hi : i < n) :
    downloadSlotsFor n i = {⟨i, by omega⟩} := by
  ext op
  simp [downloadSlotsFor, selectedAction_eq_download, Fin.ext_iff]
  omega

lemma card_downloadSlotsFor (n i : Nat) (hi : i < n) :
    (downloadSlotsFor n i).card = 1 := by
  rw [downloadSlotsFor_eq n i hi]
  simp

lemma opSlotCount_eq (n : Nat) : opSlotCount n = n + 2 := by
  simp [opSlotCount]

/-- C1 counterexample: with one uploaded identifier, `random.randint(0, len + 1)`
is uniform over the THREE values 0, 1, 2 (randint is inclusive at both ends),
not over `len + 1 = 2` slots, and both op = 1 and op = 2 select upload, so the
upload probability is 2/3, not 1/2 as the claim states. -/
theorem C1_counterexample :
    opSlotCount 1 = 3 ∧ ¬ opSlotCount 1 = 1 + 1 ∧
    uploadProb 1 = 2 / 3 ∧ ¬ uploadProb 1 = 1 / (1 + 1) := by
  have hc : (uploadSlots 1).card = 2 := card_uploadSlots 1
  have hs : opSlotCount 1 = 3 := by decide
  refine ⟨hs, by decide, ?_, ?_⟩ <;>
    rw [uploadProb, hc, hs] <;> norm_num

/-- C1 (amended): for every scheduled workload task, the operation is chosen
uniformly at random from `len(uploaded_files) + 2` equally likely randint
values: TWO of them select upload and one selects each identifier currently in
the shared collection, so the probability of choosing upload is
`2 / (len + 2)` and each known identifier is downloaded with probability
`1 / (len + 2)`. -/
theorem C1_theorem (n i : Nat) (hi : i < n) :
    opSlotCount n = n + 2 ∧
    (uploadSlots n).card = 2 ∧
    (downloadSlotsFor n i).card = 1 ∧
    uploadProb n = 2 / ((n : Rat) + 2) ∧
    downloadProbFor n i = 1 / ((n : Rat) + 2) := by
  refine ⟨opSlotCount_eq n, card_uploadSlots n, card_downloadSlotsFor n i hi, ?_, ?_⟩
  · rw [uploadProb, card_uploadSlots n, opSlotCount_eq n]
    push_cast
    ring
  · rw [downloadProbFor, card_downloadSlotsFor n i hi, opSlotCount_eq n]
    push_cast
    ring

/-- Witness for C1_theorem at n = 3, i = 1. -/
theorem C1_witness : 1 < 3 ∧ uploadProb 3 = 2 / 5 ∧ downloadProbFor 3 1 = 1 / 5 := by
  have h := C1_theorem 3 1 (by decide)
  refine ⟨by decide, ?_, ?_⟩
  · rw [h.2.2.2.1]; norm_num
  · rw [h.2.2.2.2]; norm_num

/-- C8: a timed-out upload writes exactly one record with success = false and
cid "error" and returns None; a timed-out download writes exactly one record
with success = false and file size 0; when a task selects upload
(op >= len(uploaded_files)) and the upload times out, the operation writes
that single failed record and the shared list is unchanged (no identifier
appended), with no retry: the whole task is the one call shown. -/
theorem C8_theorem (node size max_size : Nat) (cid : String) (dur : Rat)
    (files : List String) (op : Fin (files.length + 2)) (d : DownloadOutcome)
    (hop : files.length ≤ op.val) :
    upload_file node size UploadOutcome.timeout dur =
      .ok ([⟨node, Action.upload, size, "error", dur, false⟩], none) ∧
    download_file node cid DownloadOutcome.timeout dur =
      .ok ([⟨node, Action.download, 0, cid, dur, false⟩], none) ∧
    run_operation files op node size max_size UploadOutcome.timeout d dur =
      .ok ([⟨node, Action.upload, min size max_size, "error", dur, false⟩],
        files) := by
  refine ⟨rfl, rfl, ?_⟩
  unfold run_operation
  rw [dif_pos hop]
  rfl

/-- Witness for C8_theorem on the empty shared list with op = 0. -/
theorem C8_witness :
    (([] : List String).length ≤ 0) ∧
    run_operation [] ⟨0, by decide⟩ 4 7 5 UploadOutcome.timeout
        DownloadOutcome.timeout 1 =
      .ok ([⟨4, Action.upload, min 7 5, "error", 1, false⟩], []) := by
  have h := C8_theorem 4 7 5 "c" 1 [] ⟨0, by decide⟩ DownloadOutcome.timeout
    (by decide)
  exact ⟨by decide, h.2.2⟩

/-- C9: the shared collection is append-only (the new list always extends the
old one), an identifier is appended only when the upload outcome is a
success, every download row's cid is a member of the collection as it was
when the operation ran, and with an empty collection the selected action is
always upload (so the first operation of a run is an upload). -/
theorem C9_theorem (files : List String) (op : Fin (files.length + 2))
    (node size max_size : Nat) (u : UploadOutcome) (d : DownloadOutcome)
    (dur : Rat) (rows : List OperationRecord) (files2 : List String)
    (h : run_operation files op node size max_size u d dur =
      .ok (rows, files2)) :
    (∃ rest, files2 = files ++ rest) ∧
    (files2 ≠ files →
      ∃ cid, u = UploadOutcome.ok cid ∧ files2 = files ++ [cid]) ∧
    (∀ r ∈ rows, r.action = Action.download → r.cid ∈ files) ∧
    (files = [] → selectedAction files.length op = Action.upload) ∧
    (files = [] → ∀ r ∈ rows, r.action = Action.upload) := by
  have hempty : files = [] → selectedAction files.length op = Action.upload := by
    intro he
    rw [selectedAction_eq_upload]
    have h0 : files.length = 0 := by rw [he]; rfl
    omega
  unfold run_operation at h
  by_cases hop : files.length ≤ op.val
  · rw [dif_pos hop] at h
    cases u with
    | ok cid =>
      simp only [upload_file] at h
      rw [Except.ok.injEq, Prod.mk.injEq] at h
      obtain ⟨hrows, hfiles⟩ := h
      refine ⟨⟨[cid], hfiles.symm⟩, fun _ => ⟨cid, rfl, hfiles.symm⟩, ?_, hempty, ?_⟩
      · intro r hr
        rw [← hrows] at hr
        simp at hr
        rw [hr]
        intro hcontra
        simp at hcontra
      · intro _ r hr
        rw [← hrows] at hr
        simp at hr
        rw [hr]
    | timeout =>
      simp only [upload_file] at h
      rw [Except.ok.injEq, Prod.mk.injEq] at h
      obtain ⟨hrows, hfiles⟩ := h
      refine ⟨⟨[], by simp [hfiles]⟩, fun hne => absurd hfiles.symm hne, ?_, hempty, ?_⟩
      · intro r hr
        rw [← hrows] at hr
        simp at hr
        rw [hr]
        intro hcontra
        simp at hcontra
      · intro _ r hr
        rw [← hrows] at hr
        simp at hr
        rw [hr]
    | failure msg =>
      simp [upload_file] at h
  · rw [dif_neg hop] at h
    have hlt : op.val < files.length := by omega
    cases d with
    | ok len =>
      simp only [download_file] at h
      rw [Except.ok.injEq, Prod.mk.injEq] at h
      obtain ⟨hrows, hfiles⟩ := h
      refine ⟨⟨[], by simp [hfiles]⟩, fun hne => absurd hfiles.symm hne, ?_, hempty, ?_⟩
      · intro r hr
        rw [← hrows] at hr
        simp at hr
        rw [hr]
        intro _
        exact List.getElem_mem _
      · intro he
        exfalso
        have h0 : files.length = 0 := by rw [he]; rfl
        omega
    | timeout =>
      simp only [download_file] at h
      rw [Except.ok.injEq, Prod.mk.injEq] at h
      obtain ⟨hrows, hfiles⟩ := h
      refine ⟨⟨[], by simp [hfiles]⟩, fun hne => absurd hfiles.symm hne, ?_, hempty, ?_⟩
      · intro r hr
        rw [← hrows] at hr
        simp at hr
        rw [hr]
        intro _
        exact List.getElem_mem _
      · intro he
        exfalso
        have h0 : files.length = 0 := by rw [he]; rfl
        omega
    | failure msg =>
      simp [download_file] at h

/-- Witness for C9_theorem: a concrete download run against the one-element
collection. -/
theorem C9_witness :
    (run_operation ["a"] ⟨0, by decide⟩ 2 9 9 (UploadOutcome.ok "zz")
      (DownloadOutcome.ok 5) 1 =
      .ok ([⟨2, Action.download, 5, "a", 1, true⟩], ["a"])) ∧
    (⟨2, Action.download, 5, "a", 1, true⟩ : OperationRecord).cid ∈ ["a"] := by
  have h := C9_theorem ["a"] ⟨0, by decide⟩ 2 9 9 (UploadOutcome.ok "zz")
    (DownloadOutcome.ok 5) 1 [⟨2, Action.download, 5, "a", 1, true⟩] ["a"] rfl
  exact ⟨rfl, h.2.2.1 _ (by simp) rfl⟩

/-- Per-task inputs of one scheduled operation (`_delayed_operation` runs
exactly one `run_operation` after its sleep).  Because the shared list is
mutated concurrently, each task sees its own snapshot `files` of the shared
collection at its execution time. -/
structure OperationEnv where
  files : List String
  op : Fin (files.length + 2)
  node : Nat
  size : Nat
  max_size : Nat
  upOutcome : UploadOutcome
  dlOutcome : DownloadOutcome
  duration : Rat

/-- Log rows written by the single operation a task executes (an uncaught
exception writes none). -/
def opRows (e : OperationEnv) : List OperationRecord :=
  match run_operation e.files e.op e.node e.size e.max_size e.upOutcome
      e.dlOutcome e.duration with
  | .ok (rows, _) => rows
  | .error _ => []

/-- Start offset of task `i` in `run_simulation` (simulator.py lines 127-131):
`delay` starts at 0 and each loop iteration adds one exponential sample before
creating the task, so task `i` starts at the sum of the first `i + 1`
samples. -/
def startOffset (sample : Nat → Rat) (i : Nat) : Rat :=
  ((List.range (i + 1)).map sample).sum

/-- Embedding of `IPFSSimulator.run_simulation` (simulator.py lines 119-133):
returns the start offsets of the `num_operations` created tasks and the
workload-log rows of the whole run.  `asyncio.gather` awaits every task, so
the run's rows are the concatenation of all tasks' rows (join barrier: nothing
is returned before every task has finished). -/
def run_simulation (num_operations : Nat) (sample : Nat → Rat)
    (env : Nat → OperationEnv) : List Rat × List OperationRecord :=
  ((List.range num_operations).map (startOffset sample),
    (List.range num_operations).flatMap (fun i => opRows (env i)))

lemma startOffset_succ (sample : Nat → Rat) (i : Nat) :
    startOffset sample (i + 1) = startOffset sample i + sample (i + 1) := by
  unfold startOffset
  rw [List.range_succ]
  simp

lemma startOffset_mono (sample : Nat → Rat) (hs : ∀ t, 0 ≤ sample t) :
    Monotone (startOffset sample) := by
  apply monotone_nat_of_le_succ
  intro i
  rw [startOffset_succ]
  exact le_add_of_nonneg_right (hs (i + 1))

/-- C5: with `K` non-negative inter-arrival samples, the scheduler produces
exactly `K` start offsets, each the accumulated sum of the samples so far,
forming a non-decreasing sequence; exactly `K` tasks are created, each
contributing the rows of its single operation, and the run's output contains
every task's rows (join barrier); for `K = 0` no tasks run and zero rows are
written. -/
theorem C5_theorem (K : Nat) (sample : Nat → Rat) (env : Nat → OperationEnv)
    (hs : ∀ t, 0 ≤ sample t) :
    (run_simulation K sample env).1.length = K ∧
    (run_simulation K sample env).1.Pairwise (· ≤ ·) ∧
    (∀ i, i < K → ∀ r ∈ opRows (env i), r ∈ (run_simulation K sample env).2) ∧
    run_simulation 0 sample env = ([], []) := by
  refine ⟨by simp [run_simulation], ?_, ?_, rfl⟩
  · rw [run_simulation, List.pairwise_map]
    apply List.Pairwise.imp (fun hab => startOffset_mono sample hs (le_of_lt hab))
    exact List.pairwise_lt_range K
  · intro i hi r hr
    rw [run_simulation]
    simp only [List.mem_flatMap]
    exact ⟨i, by simp [hi], hr⟩

/-- Witness for C5_theorem with three constant samples. -/
theorem C5_witness :
    (∀ _t : Nat, (0 : Rat) ≤ 2) ∧
    (run_simulation 3 (fun _ => 2)
      (fun _ => ⟨[], ⟨0, by decide⟩, 0, 1, 1, UploadOutcome.timeout,
        DownloadOutcome.timeout, 1⟩)).1.length = 3 := by
  have h := C5_theorem 3 (fun _ => 2)
    (fun _ => ⟨[], ⟨0, by decide⟩, 0, 1, 1, UploadOutcome.timeout,
      DownloadOutcome.timeout, 1⟩) (fun _ => by norm_num)
  exact ⟨fun _ => by norm_num, h.1⟩

/-- One row of the topology log stream (topology.py `log_execution`):
timestamp, action, num_nodes, status, details (timestamp omitted). -/
structure TopologyLogRow where
  action : String
  num_nodes : Nat
  status : String
  details : String
deriving DecidableEq, Repr

/-- Environment of `connect_nodes`: what DNS resolution, the /id query and the
/swarm/connect POST would return.  `resolveIP j = none` models a gaierror in
`resolve_container_ip` (caught there, prints, returns None); `nodeId j = none`
models any exception in `get_node_id` (caught there, prints, returns None);
`connectResult i j` is the status code of the connect POST or `Except.error`
for a raised exception. -/
structure ConnectEnv where
  resolveIP : Nat → Option String
  nodeId : Nat → Option String
  connectResult : Nat → Nat → Except String Nat

/-- Embedding of `IPFSTopologyManager.connect_nodes` (topology.py lines
54-76).  Returns (result, printed diagnostic lines, topology-log rows
written).  The surrounding `try`/`except Exception` catches every exception,
so the function is total and returns False on any failure; it never calls
`log_execution`, so the topology-log row list is `[]` on every path, and each
path prints exactly one line (the resolve / id-fetch failure message, the
non-200 message, the exception message, or the success message). -/
def connect_nodes (env : ConnectEnv) (source_index target_index : Nat) :
    Bool × Nat × List TopologyLogRow :=
  match env.resolveIP target_index with
  | none => (false, 1, [])
  | some _ =>
    match env.nodeId target_index with
    | none => (false, 1, [])
    | some _ =>
      match env.connectResult source_index target_index with
      | .error _ => (false, 1, [])
      | .ok code => if code = 200 then (true, 1, []) else (false, 1, [])

/-- C3 counterexample: (a) a successful connect attempt writes ZERO rows to
the topology log stream, not one (connect attempts are only printed, never
logged to the CSV); (b) a workload upload that fails with a non-timeout
exception propagates out of `upload_file` uncaught and writes zero log rows,
so not every per-operation failure is caught. -/
theorem C3_counterexample :
    (connect_nodes ⟨fun _ => some "10.0.0.2", fun _ => some "peerid",
        fun _ _ => .ok 200⟩ 0 1).2.2 = [] ∧
    upload_file 0 5 (UploadOutcome.failure "HTTP 500") 1 =
      .error "HTTP 500" := by
  exact ⟨rfl, rfl⟩

/-- C3 (amended): every attempted connect is fully handled inside
`connect_nodes` — on every environment it returns a Boolean, prints exactly
one diagnostic line, writes no row to the topology log stream, and no failure
propagates; a workload operation writes exactly one operation row when it
completes or times out, but a NON-timeout failure propagates uncaught with
zero rows written. -/
theorem C3_theorem (env : ConnectEnv) (s t node size : Nat) (cid : String)
    (dur : Rat) :
    ((connect_nodes env s t).2.1 = 1 ∧ (connect_nodes env s t).2.2 = []) ∧
    (∀ c, (upload_file node size (UploadOutcome.ok c) dur).map
      (fun x => x.1.length) = .ok 1) ∧
    ((upload_file node size UploadOutcome.timeout dur).map
      (fun x => x.1.length) = .ok 1) ∧
    (∀ msg, upload_file node size (UploadOutcome.failure msg) dur =
      .error msg) ∧
    (∀ len, (download_file node cid (DownloadOutcome.ok len) dur).map
      (fun x => x.1.length) = .ok 1) ∧
    ((download_file node cid DownloadOutcome.timeout dur).map
      (fun x => x.1.length) = .ok 1) ∧
    (∀ msg, download_file node cid (DownloadOutcome.failure msg) dur =
      .error msg) := by
  refine ⟨⟨?_, ?_⟩, fun c => rfl, rfl, fun msg => rfl, fun len => rfl, rfl,
    fun msg => rfl⟩ <;>
  · unfold connect_nodes
    rcases env.resolveIP t with _ | ip
    · rfl
    · rcases env.nodeId t with _ | pid
      · rfl
      · rcases env.connectResult s t with e | code
        · rfl
        · by_cases hc : code = 200 <;> simp [hc]

/-- Embedding of `create_ring_topology` (topology.py lines 78-82): the list
of attempted edges, in order. -/
def create_ring_topology (N : Nat) : List (Nat × Nat) :=
  (List.range N).map (fun i => (i, (i + 1) % N))

/-- C4 counterexample: for N = 1 (which satisfies N ≥ 1) the single attempted
edge is connect(0, (0+1) mod 1) = connect(0, 0), a self-loop. -/
theorem C4_counterexample :
    create_ring_topology 1 = [(0, 0)] ∧
    ¬ (∀ e ∈ create_ring_topology 1, e.1 ≠ e.2) := by
  exact ⟨rfl, by decide⟩

/-- C4 (amended): for every N the ring constructor makes exactly N connect
attempts, the i-th being connect(i, (i+1) mod N); for N ≥ 2 no attempted edge
is a self-loop (for N = 1 the single attempt connect(0, 0) is one). -/
theorem C4_theorem (N i : Nat) (hi : i < N) :
    (create_ring_topology N).length = N ∧
    (create_ring_topology N)[i]? = some (i, (i + 1) % N) ∧
    (2 ≤ N → ∀ e ∈ create_ring_topology N, e.1 ≠ e.2) := by
  refine ⟨by simp [create_ring_topology], ?_, ?_⟩
  · simp [create_ring_topology, List.getElem?_map, List.getElem?_range hi]
  · intro hN e he
    simp only [create_ring_topology, List.mem_map, List.mem_range] at he
    obtain ⟨j, hj, rfl⟩ := he
    simp only [ne_eq]
    intro hcontra
    by_cases hjs : j + 1 < N
    · rw [Nat.mod_eq_of_lt hjs] at hcontra
      omega
    · have hje : j + 1 = N := by omega
      rw [hje, Nat.mod_self] at hcontra
      omega

/-- Witness for C4_theorem at N = 4, i = 3 (the wrap-around edge). -/
theorem C4_witness :
    3 < 4 ∧ (create_ring_topology 4)[3]? = some (3, (3 + 1) % 4) := by
  have h := C4_theorem 4 3 (by decide)
  exact ⟨by decide, h.2.1⟩

/-- Embedding of `create_fully_connected_topology` (topology.py lines
98-102): for i in range(N), for j in range(i+1, N), attempt connect(i, j).
Python's range(i+1, N) is the length `N - (i+1)` block starting at `i + 1`. -/
def create_fully_connected_topology (N : Nat) : List (Nat × Nat) :=
  (List.range N).flatMap
    (fun i => (List.range' (i + 1) (N - (i + 1))).map (fun j => (i, j)))

/-- Number of times an attempted edge occurs in an attempt list. -/
def edgeMultiplicity (edges : List (Nat × Nat)) (e : Nat × Nat) : Nat :=
  (edges.filter (fun x => decide (x = e))).length

lemma edgeMultiplicity_eq_one (l : List (Nat × Nat)) (x : Nat × Nat)
    (hn : l.Nodup) (hm : x ∈ l) : edgeMultiplicity l x = 1 := by
  unfold edgeMultiplicity
  induction l with
  | nil => simp at hm
  | cons a l ih =>
    rw [List.nodup_cons] at hn
    rcases List.mem_cons.mp hm with rfl | hxl
    · rw [List.filter_cons_of_pos (by simp)]
      have hnil : l.filter (fun y => decide (y = x)) = [] := by
        rw [List.filter_eq_nil_iff]
        intro b hb
        simp only [decide_eq_true_eq]
        rintro rfl
        exact hn.1 hb
      simp [hnil]
    · have hax : a ≠ x := by
        rintro rfl
        exact hn.1 hxl
      rw [List.filter_cons_of_neg (by simp [hax])]
      exact ih hn.2 hxl

lemma mem_fully_connected (N a b : Nat) :
    (a, b) ∈ create_fully_connected_topology N ↔ a < b ∧ b < N := by
  simp only [create_fully_connected_topology, List.mem_flatMap, List.mem_map,
    List.mem_range, List.mem_range'_1, Prod.mk.injEq]
  constructor
  · rintro ⟨i, hi, j, hj, rfl, rfl⟩
    omega
  · rintro ⟨hab, hbN⟩
    exact ⟨a, by omega, b, by omega, rfl, rfl⟩

lemma nodup_fully_connected (N : Nat) :
    (create_fully_connected_topology N).Nodup := by
  rw [create_fully_connected_topology, List.nodup_flatMap]
  constructor
  · intro i _
    apply List.Nodup.map
    · intro j1 j2 hj
      exact congrArg Prod.snd hj
    · exact List.nodup_range' _ _
  · apply List.Pairwise.imp ?_ (List.pairwise_lt_range N)
    intro i1 i2 hlt
    intro x hx1 hx2
    simp only [List.mem_map] at hx1 hx2
    obtain ⟨j1, _, rfl⟩ := hx1
    obtain ⟨j2, _, he⟩ := hx2
    have : i2 = i1 := congrArg Prod.fst he
    omega

lemma length_fully_connected (N : Nat) :
    (create_fully_connected_topology N).length = N * (N - 1) / 2 := by
  rw [create_fully_connected_topology, List.length_flatMap]
  simp only [Function.comp_def, List.length_map, List.length_range']
  have h1 : (fun i => N - (i + 1)) = (fun i => N - 1 - i) := by
    funext i
    omega
  have h2 : ((List.range N).map (fun i => N - 1 - i)).sum =
      ∑ i in Finset.range N, (N - 1 - i) := rfl
  rw [h1, h2, Finset.sum_range_reflect (fun i => i) N]
  exact Finset.sum_range_id N

/-- C7: for every N the full-mesh constructor makes exactly N·(N−1)/2 connect
attempts, attempting connect(i, j) exactly once for every pair with i < j < N,
with no duplicate attempts and no self-loops. -/
theorem C7_theorem (N : Nat) :
    (create_fully_connected_topology N).length = N * (N - 1) / 2 ∧
    (∀ a b : Nat, (a, b) ∈ create_fully_connected_topology N ↔
      a < b ∧ b < N) ∧
    (create_fully_connected_topology N).Nodup ∧
    (∀ e ∈ create_fully_connected_topology N, e.1 < e.2) ∧
    (∀ a b : Nat, a < b → b < N →
      edgeMultiplicity (create_fully_connected_topology N) (a, b) = 1) := by
  refine ⟨length_fully_connected N, mem_fully_connected N,
    nodup_fully_connected N, ?_, ?_⟩
  · intro e he
    obtain ⟨a, b⟩ := e
    exact ((mem_fully_connected N a b).mp he).1
  · intro a b hab hbN
    exact edgeMultiplicity_eq_one _ _ (nodup_fully_connected N)
      ((mem_fully_connected N a b).mpr ⟨hab, hbN⟩)

/-- Witness for C7_theorem at N = 4. -/
theorem C7_witness :
    (create_fully_connected_topology 4).length = 4 * (4 - 1) / 2 ∧
    (0 < 1 ∧ 1 < 4) ∧
    edgeMultiplicity (create_fully_connected_topology 4) (0, 1) = 1 := by
  have h := C7_theorem 4
  exact ⟨h.1, ⟨by decide, by decide⟩, h.2.2.2.2 0 1 (by decide) (by decide)⟩

/-- Attempted edges of the grid constructor with side `size` (topology.py
lines 90-96): for each cell (i, j) with index i·size+j, attempt the right
neighbour when j < size - 1, then the down neighbour when i < size - 1. -/
def gridEdges (size : Nat) : List (Nat × Nat) :=
  (List.range size).flatMap (fun i =>
    (List.range size).flatMap (fun j =>
      (if j < size - 1 then [(i * size + j, i * size + j + 1)] else []) ++
      (if i < size - 1 then [(i * size + j, i * size + j + size)] else [])))

/-- Embedding of `create_grid_topology` (topology.py lines 84-96).  Python
computes `size = int(len(self.urls) ** 0.5)`, modelled as `Nat.sqrt N` (the
two agree for every representable node count, and the subsequent raise
condition `size * size != N` is an exact integer comparison either way), and
raises ValueError before attempting any edge when it fails. -/
def create_grid_topology (N : Nat) : Except String (List (Nat × Nat)) :=
  let size := Nat.sqrt N
  if size * size = N then
    .ok (gridEdges size)
  else
    .error "Number of nodes must be a perfect square for grid topology"

/-- Number of connect attempts whose source is node `v`. -/
def outAttempts (edges : List (Nat × Nat)) (v : Nat) : Nat :=
  (edges.filter (fun e => decide (e.1 = v))).length

lemma grid_error (N : Nat) (h : ¬ ∃ s, s * s = N) :
    create_grid_topology N =
      .error "Number of nodes must be a perfect square for grid topology" := by
  rw [Nat.exists_mul_self] at h
  unfold create_grid_topology
  simp [h]

lemma grid_ok (S : Nat) : create_grid_topology (S * S) = .ok (gridEdges S) := by
  unfold create_grid_topology
  simp [Nat.sqrt_eq]

lemma cell_index_inj (S i j i2 j2 : Nat) (hj : j < S) (hj2 : j2 < S)
    (h : i2 * S + j2 = i * S + j) : i2 = i ∧ j2 = j := by
  have hS : 0 < S := by omega
  have d2 : (i2 * S + j2) / S = i2 := by
    rw [mul_comm, Nat.mul_add_div hS, Nat.div_eq_of_lt hj2]
    omega
  have d1 : (i * S + j) / S = i := by
    rw [mul_comm, Nat.mul_add_div hS, Nat.div_eq_of_lt hj]
    omega
  have hii : i2 = i := by
    rw [← d2, ← d1, h]
  refine ⟨hii, ?_⟩
  rw [hii] at h
  omega

lemma mem_gridEdges (S a b : Nat) :
    (a, b) ∈ gridEdges S ↔ ∃ i j, i < S ∧ j < S ∧ a = i * S + j ∧
      ((j < S - 1 ∧ b = a + 1) ∨ (i < S - 1 ∧ b = a + S)) := by
  simp only [gridEdges, List.mem_flatMap, List.mem_append, List.mem_range]
  constructor
  · rintro ⟨i, hi, j, hj, hmem | hmem⟩ <;>
    · split at hmem <;> simp only [List.mem_singleton, List.not_mem_nil,
        Prod.mk.injEq] at hmem
      obtain ⟨rfl, rfl⟩ := hmem
      exact ⟨i, j, hi, hj, rfl, by tauto⟩
  · rintro ⟨i, j, hi, hj, rfl, ⟨hjlt, rfl⟩ | ⟨hilt, rfl⟩⟩
    · exact ⟨i, hi, j, hj, Or.inl (by simp [hjlt])⟩
    · exact ⟨i, hi, j, hj, Or.inr (by simp [hilt])⟩

lemma outAttempts_gridEdges (S i j : Nat) (hi : i < S) (hj : j < S) :
    outAttempts (gridEdges S) (i * S + j) =
      (if j < S - 1 then 1 else 0) + (if i < S - 1 then 1 else 0) := by
  unfold outAttempts gridEdges
  rw [List.filter_flatMap, List.length_flatMap]
  simp only [Function.comp_def, List.filter_flatMap, List.length_flatMap]
  have hconv : ∀ (f : Nat → Nat),
      ((List.range S).map f).sum = ∑ x in Finset.range S, f x := fun _ => rfl
  simp only [hconv]
  have houter : ∀ i2 ∈ Finset.range S, i2 ≠ i →
      (∑ j2 in Finset.range S,
        (List.filter (fun e => decide (e.1 = i * S + j))
          ((if j2 < S - 1 then [(i2 * S + j2, i2 * S + j2 + 1)] else []) ++
           (if i2 < S - 1 then [(i2 * S + j2, i2 * S + j2 + S)] else []))).length)
      = 0 := by
    intro i2 _ hi2ne
    apply Finset.sum_eq_zero
    intro j2 hj2mem
    have hne : i2 * S + j2 ≠ i * S + j := by
      intro hcontra
      exact hi2ne
        (cell_index_inj S i j i2 j2 hj (Finset.mem_range.mp hj2mem) hcontra).1
    split_ifs <;> simp [hne]
  rw [Finset.sum_eq_single_of_mem i (Finset.mem_range.mpr hi) houter]
  have hinnerz : ∀ j2 ∈ Finset.range S, j2 ≠ j →
      (List.filter (fun e => decide (e.1 = i * S + j))
        ((if j2 < S - 1 then [(i * S + j2, i * S + j2 + 1)] else []) ++
         (if i < S - 1 then [(i * S + j2, i * S + j2 + S)] else []))).length
      = 0 := by
    intro j2 _ hj2ne
    have hne : i * S + j2 ≠ i * S + j := by omega
    split_ifs <;> simp [hne]
  rw [Finset.sum_eq_single_of_mem j (Finset.mem_range.mpr hj) hinnerz]
  split_ifs <;> simp [List.filter]

/-- C6: the grid constructor raises the configuration error exactly on
non-perfect-square node counts; for N = S·S it attempts, for each cell (i, j),
the right neighbour exactly when j < S−1 and the down neighbour exactly when
i < S−1 and nothing else, so a node with both a right and a down neighbour has
2 outgoing attempts, a node on exactly one of the last row / last column has
1, and the bottom-right corner has 0. -/
theorem C6_theorem (N S i j : Nat) (hi : i < S) (hj : j < S)
    (hsq : ¬ ∃ s, s * s = N) :
    create_grid_topology N =
      .error "Number of nodes must be a perfect square for grid topology" ∧
    create_grid_topology (S * S) = .ok (gridEdges S) ∧
    (∀ a b : Nat, (a, b) ∈ gridEdges S ↔ ∃ i2 j2, i2 < S ∧ j2 < S ∧
      a = i2 * S + j2 ∧
      ((j2 < S - 1 ∧ b = a + 1) ∨ (i2 < S - 1 ∧ b = a + S))) ∧
    outAttempts (gridEdges S) (i * S + j) =
      (if j < S - 1 then 1 else 0) + (if i < S - 1 then 1 else 0) ∧
    (i < S - 1 → j < S - 1 → outAttempts (gridEdges S) (i * S + j) = 2) ∧
    (i < S - 1 → j = S - 1 → outAttempts (gridEdges S) (i * S + j) = 1) ∧
    (i = S - 1 → j < S - 1 → outAttempts (gridEdges S) (i * S + j) = 1) ∧
    (i = S - 1 → j = S - 1 → outAttempts (gridEdges S) (i * S + j) = 0) := by
  have hout := outAttempts_gridEdges S i j hi hj
  refine ⟨grid_error N hsq, grid_ok S, mem_gridEdges S, hout, ?_, ?_, ?_, ?_⟩ <;>
  · intro h1 h2
    rw [hout]
    split_ifs <;> omega

/-- Witness for C6_theorem: N = 5 is not a perfect square; S = 3 with the
interior cell (1, 1) of the 3×3 grid, node index 4, which has exactly 2
outgoing attempts. -/
theorem C6_witness :
    (1 < 3 ∧ ¬ ∃ s, s * s = 5) ∧
    create_grid_topology 5 =
      .error "Number of nodes must be a perfect square for grid topology" ∧
    outAttempts (gridEdges 3) (1 * 3 + 1) = 2 := by
  have hsq : ¬ ∃ s, s * s = 5 := by
    rintro ⟨s, hs⟩
    have hs2 : s ≤ 2 := by nlinarith
    interval_cases s <;> omega
  have h := C6_theorem 5 3 1 1 (by decide) (by decide) hsq
  exact ⟨⟨by decide, hsq⟩, h.1,
    h.2.2.2.2.1 (by decide) (by decide)⟩

/-- Python `random.choices(population, weights, k)` with uniform weights:
`k` INDEPENDENT draws WITH replacement; the t-th draw picks the element at
index `stream t % population.length`.  (The constructor only calls this with
a non-empty population; the default 0 of `getD` is never used there.) -/
def py_choices (population : List Nat) (k : Nat) (stream : Nat → Nat) :
    List Nat :=
  (List.range k).map (fun t => population.getD (stream t % population.length) 0)

/-- Python `set.add` on the insertion-ordered connected list. -/
def pyAdd (c : List Nat) (x : Nat) : List Nat :=
  if x ∈ c then c else c ++ [x]

/-- Inner loop of the constructor for one new node `k` (topology.py lines
117-119): for each selected target, attempt connect(k, target) and add `k`
itself to the connected set whenever the attempt succeeds. -/
def baInner (connectOK : Nat → Nat → Bool) (k : Nat) (selected : List Nat)
    (c : List Nat) : List Nat :=
  selected.foldl (fun acc t => if connectOK k t then pyAdd acc k else acc) c

/-- Connected set after the constructor has processed new nodes 1 .. k
(topology.py lines 109-119).  `connected` starts as the singleton set with
node 0; Python's set of small ints is modelled as a duplicate-free
insertion-ordered list.  `connectOK k t` tells whether connect_nodes(k, t)
succeeds; `stream k` supplies node k's random draws. -/
def baConnected (m : Nat) (connectOK : Nat → Nat → Bool)
    (stream : Nat → Nat → Nat) : Nat → List Nat
  | 0 => [0]
  | k + 1 =>
    let c := baConnected m connectOK stream k
    baInner connectOK (k + 1)
      (py_choices c (min m c.length) (stream (k + 1))) c

/-- The connect attempts made for new node `k` (for k ≥ 1): `targets` is the
connected set as it is when node `k` is processed, and `min m |targets|`
draws are taken from it with replacement. -/
def baAttemptsFor (m : Nat) (connectOK : Nat → Nat → Bool)
    (stream : Nat → Nat → Nat) (k : Nat) : List (Nat × Nat) :=
  let c := baConnected m connectOK stream (k - 1)
  (py_choices c (min m c.length) (stream k)).map (fun t => (k, t))

/-- Embedding of `create_barabasi_albert_topology` (topology.py lines
104-119): raises ValueError unless 1 ≤ m < N, else attempts, for each new
node index k = 1 .. N−1 in order, the edges selected for k. -/
def create_barabasi_albert_topology (N m : Nat)
    (connectOK : Nat → Nat → Bool) (stream : Nat → Nat → Nat) :
    Except String (List (Nat × Nat)) :=
  if m < 1 ∨ N ≤ m then
    .error "Parameter m must be >= 1 and less than the number of nodes"
  else
    .ok ((List.range' 1 (N - 1)).flatMap (baAttemptsFor m connectOK stream))

lemma mem_baInner_of_mem (connectOK : Nat → Nat → Bool) (k : Nat)
    (selected : List Nat) (c : List Nat) (x : Nat) (hx : x ∈ c) :
    x ∈ baInner connectOK k selected c := by
  unfold baInner
  induction selected generalizing c with
  | nil => exact hx
  | cons t ts ih =>
    rw [List.foldl_cons]
    apply ih
    by_cases hc : connectOK k t
    · simp only [hc, if_true]
      unfold pyAdd
      split
      · exact hx
      · exact List.mem_append_left _ hx
    · simpa [hc]

lemma zero_mem_baConnected (m : Nat) (connectOK : Nat → Nat → Bool)
    (stream : Nat → Nat → Nat) (k : Nat) :
    0 ∈ baConnected m connectOK stream k := by
  induction k with
  | zero => simp [baConnected]
  | succ k ih =>
    rw [baConnected]
    exact mem_baInner_of_mem _ _ _ _ _ ih

lemma mem_py_choices (population : List Nat) (k : Nat) (stream : Nat → Nat)
    (hpop : population ≠ []) (x : Nat) (hx : x ∈ py_choices population k stream) :
    x ∈ population := by
  unfold py_choices at hx
  rw [List.mem_map] at hx
  obtain ⟨t, _, rfl⟩ := hx
  have hlt : stream t % population.length < population.length :=
    Nat.mod_lt _ (List.length_pos.mpr hpop)
  rw [List.getD_eq_getElem population 0 hlt]
  exact List.getElem_mem hlt

/-- C2 counterexample: with N = 3, m = 2 (so 1 ≤ m < N), every connect
succeeding and a random stream that always draws index 0, node 2's attempted
targets are [0, 0] — drawn WITH replacement by random.choices — so the
attempted targets are not pairwise distinct. -/
theorem C2_counterexample :
    create_barabasi_albert_topology 3 2 (fun _ _ => true) (fun _ _ => 0) =
      .ok [(1, 0), (2, 0), (2, 0)] ∧
    baAttemptsFor 2 (fun _ _ => true) (fun _ _ => 0) 2 = [(2, 0), (2, 0)] ∧
    ¬ (baAttemptsFor 2 (fun _ _ => true) (fun _ _ => 0) 2).Nodup := by
  refine ⟨rfl, rfl, by decide⟩

/-- C2 (amended): the constructor raises the configuration error exactly when
the precondition 1 ≤ m < N fails; for every new node k ≥ 1 it attempts
exactly min(m, |connected|) connect calls — hence at most m — and every
attempted edge goes from k to a member of the current connected set, but the
targets are drawn with replacement (random.choices), so they need not be
pairwise distinct. -/
theorem C2_theorem (N m k : Nat) (connectOK : Nat → Nat → Bool)
    (stream : Nat → Nat → Nat) (hm : 1 ≤ m) (hmN : m < N) (_hk : 1 ≤ k) :
    (create_barabasi_albert_topology N m connectOK stream).isOk = true ∧
    (∀ N2 m2, m2 < 1 ∨ N2 ≤ m2 →
      create_barabasi_albert_topology N2 m2 connectOK stream =
        .error "Parameter m must be >= 1 and less than the number of nodes") ∧
    (baAttemptsFor m connectOK stream k).length =
      min m (baConnected m connectOK stream (k - 1)).length ∧
    (baAttemptsFor m connectOK stream k).length ≤ m ∧
    (∀ e ∈ baAttemptsFor m connectOK stream k,
      e.1 = k ∧ e.2 ∈ baConnected m connectOK stream (k - 1)) := by
  refine ⟨?_, ?_, ?_, ?_, ?_⟩
  · have hcond : ¬ (m < 1 ∨ N ≤ m) := by omega
    unfold create_barabasi_albert_topology
    rw [if_neg hcond]
    rfl
  · intro N2 m2 hcond
    unfold create_barabasi_albert_topology
    rw [if_pos hcond]
  · simp [baAttemptsFor, py_choices]
  · simp only [baAttemptsFor, py_choices, List.length_map, List.length_range]
    exact min_le_left _ _
  · intro e he
    have hne : baConnected m connectOK stream (k - 1) ≠ [] :=
      List.ne_nil_of_mem (zero_mem_baConnected m connectOK stream (k - 1))
    unfold baAttemptsFor at he
    rw [List.mem_map] at he
    obtain ⟨t, ht, rfl⟩ := he
    exact ⟨rfl, mem_py_choices _ _ _ hne t ht⟩

/-- Witness for C2_theorem at N = 3, m = 2, k = 2 with all connects
succeeding and a constant random stream. -/
theorem C2_witness :
    (1 ≤ 2 ∧ 2 < 3 ∧ 1 ≤ 2) ∧
    (baAttemptsFor 2 (fun _ _ => true) (fun _ _ => 0) 2).length ≤ 2 ∧
    (∀ e ∈ baAttemptsFor 2 (fun _ _ => true) (fun _ _ => 0) 2,
      e.1 = 2 ∧ e.2 ∈ baConnected 2 (fun _ _ => true) (fun _ _ => 0) 1) := by
  have h := C2_theorem 3 2 2 (fun _ _ => true) (fun _ _ => 0)
    (by decide) (by decide) (by decide)
  exact ⟨⟨by decide, by decide, by decide⟩, h.2.2.2.1, h.2.2.2.2⟩

/-- One peer session as returned by /swarm/peers?verbose=true: the "Peer"
field (an absent field is `none`) and the "Protocol" fields of its
"Streams" entries. -/
structure PeerSession where
  peer : Option String
  streamProtocols : List (Option String)
deriving DecidableEq, Repr

/-- Protocol identifier the verifier filters for (topology.py line 135). -/
def kad_protocol : String := "/ipfs/lan/kad/1.0.0"

/-- The sessions surviving the DHT-protocol filter (topology.py lines
133-136): keep a session iff any of its streams advertises the kad
protocol. -/
def kadPeers (peers : List PeerSession) : List PeerSession :=
  peers.filter
    (fun p => p.streamProtocols.any (fun pr => decide (pr = some kad_protocol)))

/-- Inner marking loop of the verifier (topology.py lines 140-142): for j in
range(N), if get_node_id(j) == peer_id then set matrix[i][j] = 1.  All
matching indices are marked, not only the first; `nodeId j = none` models a
failed identity fetch (get_node_id returned None). -/
def markMatches (N : Nat) (nodeId : Nat → Option String) (pid : Option String)
    (row : List Nat) : List Nat :=
  (List.range N).foldl (fun r t => if nodeId t = pid then r.set t 1 else r) row

/-- Row i of the observed matrix: all zeros initially; `peersResult = none`
models a failed or non-200 peers query for node i (its row stays zero, like
an empty peer list), otherwise each surviving peer's identity is marked. -/
def rowFor (N : Nat) (nodeId : Nat → Option String)
    (peersResult : Option (List PeerSession)) : List Nat :=
  match peersResult with
  | none => List.replicate N 0
  | some peers =>
    (kadPeers peers).foldl (fun r p => markMatches N nodeId p.peer r)
      (List.replicate N 0)

/-- Embedding of `read_connection_matrix` (topology.py lines 121-146): the
matrix starts as N rows of N zeros and row i is mutated only by loop
iteration i. -/
def read_connection_matrix (N : Nat) (nodeId : Nat → Option String)
    (peersOf : Nat → Option (List PeerSession)) : List (List Nat) :=
  (List.range N).map (fun i => rowFor N nodeId (peersOf i))

/-- Entry (i, j) of an adjacency matrix. -/
def matrixEntry (mx : List (List Nat)) (i j : Nat) : Nat :=
  (mx.getD i []).getD j 0

lemma foldl_set_length (nodeId : Nat → Option String) (pid : Option String) :
    ∀ (l : List Nat) (row : List Nat),
      (l.foldl (fun r t => if nodeId t = pid then r.set t 1 else r) row).length
        = row.length := by
  intro l
  induction l with
  | nil => intro row; rfl
  | cons t ts ih =>
    intro row
    rw [List.foldl_cons, ih]
    split <;> simp

lemma foldl_set_getD (nodeId : Nat → Option String) (pid : Option String) :
    ∀ (l : List Nat) (row : List Nat) (j : Nat), j < row.length →
      (l.foldl (fun r t => if nodeId t = pid then r.set t 1 else r)
        row).getD j 0 =
        if j ∈ l ∧ nodeId j = pid then 1 else row.getD j 0 := by
  intro l
  induction l with
  | nil =>
    intro row j _
    simp
  | cons t ts ih =>
    intro row j hj
    rw [List.foldl_cons]
    have hlen : (if nodeId t = pid then row.set t 1 else row).length =
        row.length := by
      split <;> simp
    rw [ih _ j (by rw [hlen]; exact hj)]
    by_cases hts : j ∈ ts ∧ nodeId j = pid
    · simp only [hts, and_true, if_true]
      have hcons : j ∈ t :: ts ∧ nodeId j = pid :=
        ⟨List.mem_cons_of_mem t hts.1, hts.2⟩
      simp [hcons]
    · rw [if_neg hts]
      by_cases hmatch : nodeId t = pid
      · rw [if_pos hmatch]
        by_cases htj : t = j
        · subst htj
          rw [if_pos ⟨List.mem_cons_self t ts, hmatch⟩]
          rw [List.getD_eq_getElem _ 0 (by simpa using hj)]
          simp [List.getElem_set_self]
        · have hne : ¬ (j ∈ t :: ts ∧ nodeId j = pid) := by
            rintro ⟨hmem, hp⟩
            rcases List.mem_cons.mp hmem with rfl | hmem2
            · exact htj rfl
            · exact hts ⟨hmem2, hp⟩
          rw [if_neg hne]
          rw [List.getD_eq_getElem _ 0 (by simpa using hj),
            List.getD_eq_getElem _ 0 hj]
          simp [List.getElem_set_ne (fun h => htj h)]
      · rw [if_neg hmatch]
        have hne : ¬ (j ∈ t :: ts ∧ nodeId j = pid) := by
          rintro ⟨hmem, hp⟩
          rcases List.mem_cons.mp hmem with rfl | hmem2
          · exact hmatch hp
          · exact hts ⟨hmem2, hp⟩
        rw [if_neg hne]

lemma foldl_set_id (nodeId : Nat → Option String) (pid : Option String) :
    ∀ (l : List Nat) (row : List Nat), (∀ t ∈ l, nodeId t ≠ pid) →
      l.foldl (fun r t => if nodeId t = pid then r.set t 1 else r) row =
        row := by
  intro l
  induction l with
  | nil => intro row _; rfl
  | cons t ts ih =>
    intro row hl
    rw [List.foldl_cons, if_neg (hl t (List.mem_cons_self t ts))]
    exact ih row (fun u hu => hl u (List.mem_cons_of_mem t hu))

lemma markMatches_length (N : Nat) (nodeId : Nat → Option String)
    (pid : Option String) (row : List Nat) :
    (markMatches N nodeId pid row).length = row.length :=
  foldl_set_length nodeId pid _ row

lemma markMatches_getD (N : Nat) (nodeId : Nat → Option String)
    (pid : Option String) (row : List Nat) (j : Nat) (hj : j < N)
    (hrow : row.length = N) :
    (markMatches N nodeId pid row).getD j 0 =
      if nodeId j = pid then 1 else row.getD j 0 := by
  rw [markMatches, foldl_set_getD nodeId pid _ row j (by omega)]
  simp [List.mem_range, hj]

lemma peersFold_length (N : Nat) (nodeId : Nat → Option String) :
    ∀ (peers : List PeerSession) (row : List Nat),
      (peers.foldl (fun r p => markMatches N nodeId p.peer r) row).length =
        row.length := by
  intro peers
  induction peers with
  | nil => intro row; rfl
  | cons p ps ih =>
    intro row
    rw [List.foldl_cons, ih, markMatches_length]

lemma peersFold_getD (N : Nat) (nodeId : Nat → Option String) :
    ∀ (peers : List PeerSession) (row : List Nat) (j : Nat), j < N →
      row.length = N →
      ((peers.foldl (fun r p => markMatches N nodeId p.peer r) row).getD j 0) =
        if ∃ p ∈ peers, nodeId j = p.peer then 1 else row.getD j 0 := by
  intro peers
  induction peers with
  | nil =>
    intro row j hj hrow
    simp
  | cons p ps ih =>
    intro row j hj hrow
    rw [List.foldl_cons, ih _ j hj (by rw [markMatches_length]; exact hrow)]
    by_cases hps : ∃ q ∈ ps, nodeId j = q.peer
    · rw [if_pos hps, if_pos ⟨hps.choose,
        List.mem_cons_of_mem p hps.choose_spec.1, hps.choose_spec.2⟩]
    · rw [if_neg hps, markMatches_getD N nodeId p.peer row j hj hrow]
      by_cases hp : nodeId j = p.peer
      · rw [if_pos hp, if_pos ⟨p, List.mem_cons_self p ps, hp⟩]
      · rw [if_neg hp, if_neg ?_]
        rintro ⟨q, hq, hqp⟩
        rcases List.mem_cons.mp hq with rfl | hq2
        · exact hp hqp
        · exact hps ⟨q, hq2, hqp⟩

lemma getD_replicate_zero (N j : Nat) :
    (List.replicate N (0 : Nat)).getD j 0 = 0 := by
  by_cases hj : j < N
  · rw [List.getD_eq_getElem _ _ (by simpa using hj)]
    simp
  · rw [List.getD_eq_default _ _ (by simpa using hj)]

lemma rowFor_length (N : Nat) (nodeId : Nat → Option String)
    (pr : Option (List PeerSession)) : (rowFor N nodeId pr).length = N := by
  cases pr with
  | none => simp [rowFor]
  | some peers =>
    rw [rowFor, peersFold_length]
    simp

lemma rowFor_getD (N : Nat) (nodeId : Nat → Option String)
    (peers : List PeerSession) (j : Nat) (hj : j < N) :
    (rowFor N nodeId (some peers)).getD j 0 =
      if ∃ p ∈ kadPeers peers, nodeId j = p.peer then 1 else 0 := by
  rw [rowFor, peersFold_getD N nodeId _ _ j hj (by simp),
    getD_replicate_zero]

lemma matrixEntry_eq (N : Nat) (nodeId : Nat → Option String)
    (peersOf : Nat → Option (List PeerSession)) (i j : Nat) (hi : i < N) :
    matrixEntry (read_connection_matrix N nodeId peersOf) i j =
      (rowFor N nodeId (peersOf i)).getD j 0 := by
  unfold matrixEntry read_connection_matrix
  have hlen : i <
      ((List.range N).map (fun i2 => rowFor N nodeId (peersOf i2))).length := by
    simpa using hi
  rw [List.getD_eq_getElem _ ([] : List Nat) hlen]
  simp

/-- C10: the verifier marks matrix[i][j] = 1 for EVERY node index j whose
fetched identity equals a surviving session's peer identity (not only the
first match); a peer identity matching no known node leaves the row
unchanged; every entry is 0 or 1; and the matrix is N×N rows regardless of
which nodes' peer queries fail. -/
theorem C10_theorem (N : Nat) (nodeId : Nat → Option String)
    (peersOf : Nat → Option (List PeerSession)) (i j : Nat) (hi : i < N)
    (hj : j < N) (peers : List PeerSession) (hp : peersOf i = some peers) :
    (read_connection_matrix N nodeId peersOf).length = N ∧
    (∀ row ∈ read_connection_matrix N nodeId peersOf, row.length = N) ∧
    (∀ row ∈ read_connection_matrix N nodeId peersOf, ∀ x ∈ row,
      x = 0 ∨ x = 1) ∧
    (matrixEntry (read_connection_matrix N nodeId peersOf) i j = 1 ↔
      ∃ p ∈ kadPeers peers, nodeId j = p.peer) ∧
    (matrixEntry (read_connection_matrix N nodeId peersOf) i j = 0 ↔
      ¬ ∃ p ∈ kadPeers peers, nodeId j = p.peer) ∧
    (∀ pid row, (∀ t, t < N → nodeId t ≠ pid) →
      markMatches N nodeId pid row = row) := by
  have hentry : matrixEntry (read_connection_matrix N nodeId peersOf) i j =
      if ∃ p ∈ kadPeers peers, nodeId j = p.peer then 1 else 0 := by
    rw [matrixEntry_eq N nodeId peersOf i j hi, hp, rowFor_getD N nodeId peers j hj]
  refine ⟨by simp [read_connection_matrix], ?_, ?_, ?_, ?_, ?_⟩
  · intro row hrow
    rw [read_connection_matrix, List.mem_map] at hrow
    obtain ⟨i2, _, rfl⟩ := hrow
    exact rowFor_length N nodeId (peersOf i2)
  · intro row hrow x hx
    rw [read_connection_matrix, List.mem_map] at hrow
    obtain ⟨i2, _, rfl⟩ := hrow
    obtain ⟨j2, hj2, rfl⟩ := List.mem_iff_getElem.mp hx
    rw [← List.getD_eq_getElem _ 0 hj2]
    have hj2N : j2 < N := by
      rw [rowFor_length N nodeId (peersOf i2)] at hj2
      exact hj2
    cases hpe : peersOf i2 with
    | none => simp [rowFor, getD_replicate_zero]
    | some ps =>
      rw [rowFor_getD N nodeId ps j2 hj2N]
      split <;> simp
  · rw [hentry]
    split_ifs with hx <;> simp [hx]
  · rw [hentry]
    split_ifs with hx <;> simp [hx]
  · intro pid row hnone
    unfold markMatches
    exact foldl_set_id nodeId pid _ row
      (fun t ht => hnone t (List.mem_range.mp ht))

/-- Witness for C10_theorem: two nodes, node 0's only surviving session has
node 1's identity, so entry (0, 1) is 1. -/
theorem C10_witness :
    (0 < 2 ∧ 1 < 2) ∧
    matrixEntry (read_connection_matrix 2
      (fun t => if t = 0 then some "A" else some "B")
      (fun _ => some [⟨some "B", [some kad_protocol]⟩])) 0 1 = 1 := by
  have h := C10_theorem 2 (fun t => if t = 0 then some "A" else some "B")
    (fun _ => some [⟨some "B", [some kad_protocol]⟩]) 0 1 (by decide)
    (by decide) [⟨some "B", [some kad_protocol]⟩] rfl
  refine ⟨⟨by decide, by decide⟩, ?_⟩
  apply h.2.2.2.1.mpr
  refine ⟨⟨some "B", [some kad_protocol]⟩, ?_, by decide⟩
  unfold kadPeers
  decide

end IPFS
